import Mathlib

/-!
Verification of the bingo language server's semantic engine against its
specification.  The Go sources under `langserver/` (references.go,
implementation.go, symbol.go, the hover/definition files and the package
cache) are shallowly embedded below: pure Go functions become Lean
functions on explicit data, Go maps become association lists, Go string
bytes become `String`/`List Char` values (ASCII case folding models
`strings.ToLower`), and the external parser/type-checker collaborators
(position resolution, `types.AssignableTo`, score inputs, ...) are
abstracted as explicit oracle parameters, exactly where the Go code calls
out of the files at hand.
-/

namespace Bingo

/-- `token.Pos`: positions are absolute offsets; 0 is the invalid position
(`token.NoPos`), mirroring `go/token`. -/
abbrev GoPos := Nat

/-- An `*ast.Ident` as the reference search uses it: its position and name
(`references.go` only ever reads `id.Pos()` and `id.Name`). -/
structure GoIdent where
  namePos : GoPos
  name : String
deriving DecidableEq, Repr

/-- A `types.Object` as seen by `sameObj` and the reference search:
`ref` stands for the object's pointer identity, `pkg` is
`Pkg().Path()` (`none` when `Pkg() == nil`, i.e. universe/builtin objects),
`pkgNameImported` is `some p` exactly when the object is a `*types.PkgName`
whose `Imported()` package has identity `p`, and `isBuiltinKind` records
whether the dynamic type is `*types.Builtin`. -/
structure GoObj where
  ref : Nat
  pkg : Option String
  name : String
  exported : Bool
  pkgNameImported : Option Nat
  isBuiltinKind : Bool
  pos : GoPos
deriving DecidableEq, Repr

/-- `sameObj` from `references.go`: reports whether `x` and `y` are
identical, or both are `PkgName`s that import the same package, or share
package path and name while both exported, or are same-named unowned
(builtin) symbols.  Go's `x == y` interface comparison is pointer
identity, rendered here as equality of the embedded records. -/
def sameObj (x y : GoObj) : Bool :=
  if x = y then true
  else if ((match x.pkg, y.pkg with
            | some px, some py => decide (px = py)
            | _, _ => false)
           && x.name == y.name && x.exported && y.exported) then true
  else if (x.pkg == none && y.pkg == none && x.name == y.name) then true
  else match x.pkgNameImported, y.pkgNameImported with
       | some ix, some iy => ix == iy
       | _, _ => false

/-- `cache.BuiltinPkg`: the sentinel import path of the builtin package. -/
def BuiltinPkg : String := "builtin"

/-- A cached package as the reference search consumes it:
`pkgPath = GetPkgPath()`, `imports` holds the keys of the direct-import
map (`GetImport(p) != nil` iff `p ∈ imports`), and `typesInfo` is `none`
when `GetTypesInfo()` is nil, otherwise the entries of the `Uses` map. -/
structure SrcPkg where
  pkgPath : String
  imports : List String
  typesInfo : Option (List (GoIdent × GoObj))
deriving Repr

/-- The identifier uses of one package matching the queried object:
the scan of `GetTypesInfo().Uses` in `findReferences` (a nil types info
contributes nothing). -/
def usesMatches (queryObj : GoObj) (pkg : SrcPkg) : List GoIdent :=
  match pkg.typesInfo with
  | none => []
  | some uses => (uses.filter (fun u => sameObj queryObj u.2)).map (·.1)

/-- The `defPkgPath` local of `findReferences`: the queried object's
defining package path, or the builtin sentinel when it has no package. -/
def defPkgPath (queryObj : GoObj) : String :=
  match queryObj.pkg with
  | some p => p
  | none => BuiltinPkg

/-- `findReferences` from `references.go`, as a pure walk over the cached
packages in the order `Project.Search`/`Cache.Walk` produces them: skip
packages that neither directly import the defining package path nor are
it (builtin queries skip the filter), and collect matching uses. -/
def findReferences (queryObj : GoObj) (pkgs : List SrcPkg) : List GoIdent :=
  pkgs.foldl (fun refs pkg =>
    if defPkgPath queryObj ≠ BuiltinPkg ∧ defPkgPath queryObj ∉ pkg.imports
        ∧ pkg.pkgPath ≠ defPkgPath queryObj then
      refs
    else
      match pkg.typesInfo with
      | none => refs
      | some uses => refs ++ (uses.filter (fun u => sameObj queryObj u.2)).map (·.1)) []

/-- An `lsp.Range`, zero-based line/character start and end. -/
structure LspRange where
  startLine : Nat
  startChar : Nat
  endLine : Nat
  endChar : Nat
deriving DecidableEq, Repr

/-- An `lsp.Location`. -/
structure LspLoc where
  uri : String
  range : LspRange
deriving DecidableEq, Repr

/-- The `%s` rendering of an `lsp.Range` that `fmt.Sprintf` performs in
`formatLocation` (Go's default struct formatting; braces elided, the four
numbers in order). -/
def rangeString (r : LspRange) : String :=
  toString r.startLine ++ " " ++ toString r.startChar ++ " "
    ++ toString r.endLine ++ " " ++ toString r.endChar

/-- `formatLocation` from `references.go`: the textual `(uri, range)`
de-duplication key `fmt.Sprintf("%s:%s", loc.URI, loc.Range)`. -/
def formatLocation (loc : LspLoc) : String :=
  loc.uri ++ ":" ++ rangeString loc.range

/-- One step of the collection loop in `refStreamAndCollect`: the state is
the set of seen keys (Go `map[string]bool`, as a list) and the locations
accumulated in discovery order. -/
def refCollectStep (locOf : GoPos → String → LspLoc)
    (st : List String × List LspLoc) (id : GoIdent) : List String × List LspLoc :=
  let loc := locOf id.namePos id.name
  if loc.uri = "" then st
  else
    let key := formatLocation loc
    if key ∈ st.1 then st
    else (key :: st.1, st.2 ++ [loc])

/-- `refStreamAndCollect` from `references.go`: truncate the raw
identifier list to the `XLimit` bound (`0` meaning no limit), then map
each identifier to a location (`goRangeToLSPLocation`, abstracted as the
`locOf` oracle), dropping empty URIs and de-duplicating by
`formatLocation` key. -/
def refStreamAndCollect (locOf : GoPos → String → LspLoc)
    (refs : List GoIdent) (limit : Int) : List LspLoc :=
  let limit' : Int := if limit = 0 then (refs.length : Int) else limit
  let l : Nat := if limit' < (refs.length : Int) then limit'.toNat else refs.length
  ((refs.take l).foldl (refCollectStep locOf) ([], [])).2

/-- A wire-protocol position (zero-based `line`/`character`), kept as
integers so that the off-by-one retry can decrement past zero just as the
Go `int` does. -/
structure LspPosition where
  line : Int
  character : Int
deriving DecidableEq, Repr

/-- Outcome of `h.typeCheck(ctx, uri, position)` as the handlers see it:
success with the owning package and resolved offset, the
`*source.InvalidNodeError` case (resolver found nothing identifier-like),
or any other error. -/
inductive TcOutcome (α : Type) where
  | ok (a : α)
  | invalidNode
  | failed
deriving DecidableEq, Repr

/-- The first entry of `GetPathNodes` as `doHandleTextDocumentReferences`
switches on it: an identifier, a function declaration (whose name is
taken), or anything else. -/
inductive RefPathNode where
  | ident (i : GoIdent)
  | funcDecl (nameIdent : GoIdent)
  | other
deriving DecidableEq, Repr

/-- The non-nil errors `doHandleTextDocumentReferences` can return. -/
inductive RefErr where
  | typeCheckFailed
  | pathNodesFailed
  | invalidNode
  | objNotFound
  | noPkgForObject
deriving DecidableEq, Repr

/-- The collaborators of the references handler that live outside
`references.go`: the position resolver, `source.GetPathNodes` (first
node, `none` on error), `source.FindIdentObject`, the cached package walk
of `Project.Search`, and `goRangeToLSPLocation`. -/
structure RefsWorld where
  typeCheck : LspPosition → TcOutcome (SrcPkg × GoPos)
  firstPathNode : SrcPkg → GoPos → Option RefPathNode
  findIdentObject : SrcPkg → GoIdent → Option GoObj
  cachedPkgs : List SrcPkg
  locOf : GoPos → String → LspLoc

/-- `lsp.ReferenceParams` as the handler reads it. -/
structure RefParams where
  pos : LspPosition
  includeDeclaration : Bool
  xlimit : Int
deriving DecidableEq, Repr

/-- `doHandleTextDocumentReferences` from `references.go`: a typeCheck
`InvalidNodeError` becomes an empty success; a non-identifier first path
node is an `InvalidNode` error; a missing object or an unowned
non-builtin object is an error; otherwise references are searched,
optionally extended with the declaration, and collected. -/
def doHandleTextDocumentReferences (w : RefsWorld) (p : RefParams) :
    Except RefErr (List LspLoc) :=
  match w.typeCheck p.pos with
  | .invalidNode => .ok []
  | .failed => .error .typeCheckFailed
  | .ok (pkg, pos) =>
    match w.firstPathNode pkg pos with
    | none => .error .pathNodesFailed
    | some node =>
      match (match node with
             | .ident i => some i
             | .funcDecl n => some n
             | .other => none) with
      | none => .error .invalidNode
      | some ident =>
        match w.findIdentObject pkg ident with
        | none => .error .objNotFound
        | some obj =>
          if obj.pkg = none ∧ ¬obj.isBuiltinKind then .error .noPkgForObject
          else
            let refs := findReferences obj w.cachedPkgs
            let refs := if p.includeDeclaration then refs ++ [⟨obj.pos, obj.name⟩] else refs
            .ok (refStreamAndCollect w.locOf refs p.xlimit)

/-- Decrement `params.Position.Character` by one (the off-by-one retry). -/
def decCharRef (p : RefParams) : RefParams :=
  { p with pos := { p.pos with character := p.pos.character - 1 } }

/-- `handleTextDocumentReferences` from `references.go`: run the handler,
and on a non-nil error retry once at `character - 1`, returning whatever
the retry produced. -/
def handleTextDocumentReferences (w : RefsWorld) (p : RefParams) :
    Except RefErr (List LspLoc) :=
  match doHandleTextDocumentReferences w p with
  | .error _ => doHandleTextDocumentReferences w (decCharRef p)
  | .ok locs => .ok locs

/-- The first entry of `GetPathNodes` as `doHandleXDefinition` switches on
it: identifiers, type specs and selector/call sugar reduce to an
identifier; a call whose function is neither form, or any other node, is
invalid. -/
inductive DefNode where
  | ident (i : GoIdent)
  | typeSpec (nameIdent : GoIdent)
  | callIdent (i : GoIdent)
  | callSel (sel : GoIdent)
  | selector (sel : GoIdent)
  | callOther
  | other
deriving DecidableEq, Repr

/-- The non-nil errors the definition pipeline can return. -/
inductive DefErr where
  | typeCheckFailed
  | pathNodesFailed
  | invalidNode
  | notFound
deriving DecidableEq, Repr

/-- A `SymbolLocationInformation` record (the definition handler's result
element); only its location matters to the control-flow claims. -/
structure SymLocInfo where
  loc : LspLoc
  typeLoc : Option LspLoc
deriving DecidableEq, Repr

/-- Collaborators of `handleXDefinition`: the resolver, the path-node
lookup, and `lookupIdentDefinition` (which internally performs the
embedded-field substitution, builtin redirection and descriptor assembly
of the definition pipeline). -/
structure XDefWorld where
  typeCheck : LspPosition → TcOutcome (SrcPkg × GoPos)
  firstPathNode : SrcPkg → GoPos → Option DefNode
  lookupIdentDefinition : SrcPkg → GoIdent → Except DefErr (List SymLocInfo)

/-- `doHandleXDefinition`: a typeCheck `InvalidNodeError` becomes an empty
success; the path-node switch reduces call/selector/type-spec sugar to an
identifier and fails with `InvalidNode` otherwise. -/
def doHandleXDefinition (w : XDefWorld) (pos : LspPosition) :
    Except DefErr (List SymLocInfo) :=
  match w.typeCheck pos with
  | .invalidNode => .ok []
  | .failed => .error .typeCheckFailed
  | .ok (pkg, gpos) =>
    match w.firstPathNode pkg gpos with
    | none => .error .pathNodesFailed
    | some node =>
      match (match node with
             | .ident i => some i
             | .typeSpec n => some n
             | .callIdent i => some i
             | .callSel s => some s
             | .selector s => some s
             | .callOther => none
             | .other => none) with
      | none => .error .invalidNode
      | some ident => w.lookupIdentDefinition pkg ident

/-- `handleXDefinition`: run the pipeline, and on a non-nil error retry
once at `character - 1`. -/
def handleXDefinition (w : XDefWorld) (pos : LspPosition) :
    Except DefErr (List SymLocInfo) :=
  match doHandleXDefinition w pos with
  | .error _ => doHandleXDefinition w { pos with character := pos.character - 1 }
  | .ok symbols => .ok symbols

/-- An `lspext.ImplementationLocation`. -/
structure ImplLoc where
  loc : LspLoc
  typ : String
  ptr : Bool
  isMethod : Bool
deriving DecidableEq, Repr

/-- Collaborators of the implementation handler: the resolver and the rest
of the pipeline (`findInterestingNode` + `implements`). -/
structure ImplWorld where
  typeCheck : LspPosition → TcOutcome (SrcPkg × GoPos)
  implementsAt : SrcPkg → GoPos → Except Unit (List ImplLoc)

/-- `handleTextDocumentImplementation` from `implementation.go`: a
typeCheck `InvalidNodeError` becomes an empty success with a nil error,
any other resolver error propagates, and otherwise the implementation
search runs. -/
def handleTextDocumentImplementation (w : ImplWorld) (pos : LspPosition) :
    Except Unit (List ImplLoc) :=
  match w.typeCheck pos with
  | .invalidNode => .ok []
  | .failed => .error ()
  | .ok (pkg, gpos) => w.implementsAt pkg gpos

/-- The queries `implements` makes of the external type checker
(`go/types`): interface test, method-set size, identity, assignability,
pointer formation, and the printed form used for sorting. -/
structure TypeOracle (Ty : Type) where
  isInterface : Ty → Bool
  msetLen : Ty → Nat
  identical : Ty → Ty → Bool
  assignable : Ty → Ty → Bool
  newPointer : Ty → Ty
  typeStr : Ty → String

/-- The body of the `implements` loop in `implementation.go` for one
candidate named type `U`: the `(to, from, fromPtr)` increments appended
for `U` against the queried type `T`. -/
def implContrib {Ty : Type} (o : TypeOracle Ty) (T U : Ty) :
    List Ty × List Ty × List Ty :=
  if o.isInterface T then
    if o.msetLen T = 0 then ([], [], [])
    else if o.isInterface U then
      if o.msetLen U = 0 then ([], [], [])
      else if o.identical T U then ([], [], [])
      else ((if o.assignable U T then [U] else []),
            (if o.assignable T U then [U] else []), [])
    else
      if o.assignable U T then ([U], [], [])
      else if o.assignable (o.newPointer U) T then ([o.newPointer U], [], [])
      else ([], [], [])
  else if o.isInterface U then
    if o.msetLen U = 0 then ([], [], [])
    else if o.assignable T U then ([], [U], [])
    else if o.assignable (o.newPointer T) U then ([], [], [U])
    else ([], [], [])
  else ([], [], [])

/-- The `implements` loop over all collected named types, accumulating the
three buckets in candidate order. -/
def implLoop {Ty : Type} (o : TypeOracle Ty) (T : Ty) :
    List Ty → List Ty × List Ty × List Ty
  | [] => ([], [], [])
  | U :: rest =>
    let c := implContrib o T U
    let r := implLoop o T rest
    (c.1 ++ r.1, c.2.1 ++ r.2.1, c.2.2 ++ r.2.2)

/-- The `(to, from, fromPtr)` buckets computed by `implements`. -/
def implementsBuckets {Ty : Type} (o : TypeOracle Ty) (T : Ty)
    (allNamed : List Ty) : List Ty × List Ty × List Ty :=
  implLoop o T allNamed

/-- The result assembly of `implements` for a bare-type query
(`method == nil`, where the `seen` method de-duplication is not
consulted): each bucket is sorted by the type's printed form
(`typesByString`), mapped through `toLocation` (abstracted as `toLoc`,
`none` for non-named types), and tagged `to`/`from` with the pointer
flag on the `fromPtr` bucket. -/
def implementsResult {Ty : Type} (o : TypeOracle Ty)
    (toLoc : Ty → Option LspLoc) (T : Ty) (allNamed : List Ty) : List ImplLoc :=
  let b := implementsBuckets o T allNamed
  let leStr : Ty → Ty → Bool := fun a b => decide (o.typeStr a ≤ o.typeStr b)
  ((b.1.mergeSort leStr).filterMap toLoc).map
      (fun l => { loc := l, typ := "to", ptr := false, isMethod := false })
    ++ ((b.2.1.mergeSort leStr).filterMap toLoc).map
      (fun l => { loc := l, typ := "from", ptr := false, isMethod := false })
    ++ ((b.2.2.mergeSort leStr).filterMap toLoc).map
      (fun l => { loc := l, typ := "from", ptr := true, isMethod := false })

/-- A `symbolPair`'s symbol information as collection and sorting read it
(name, container, URI, kind; the descriptor fields are consumed only by
the abstracted score). -/
structure SymbolPair where
  name : String
  container : String
  uri : String
  kind : Nat
deriving DecidableEq, Repr

/-- `ast.IsExported`: the first character is upper-case (ASCII model of
`unicode.IsUpper` on the first rune; an empty name is not exported). -/
def isExportedName (s : String) : Bool :=
  match s.data with
  | [] => false
  | c :: _ => c.isUpper

/-- `isExported` from `symbol.go`: a symbol without a container is
exported iff its name is; with a container, both container and name must
be exported. -/
def isExported (sym : SymbolPair) : Bool :=
  if sym.container = "" then isExportedName sym.name
  else isExportedName sym.container && isExportedName sym.name

/-- A `scoredSymbol`: a symbol with its search relevancy score. -/
structure ScoredSymbol where
  score : Int
  sym : SymbolPair
deriving DecidableEq, Repr

/-- `FilterExported` (`FilterType` is a string type in the source). -/
def FilterExportedS : String := "exported"

/-- `FilterDir`. -/
def FilterDirS : String := "dir"

/-- The query fields `handleSymbol`/`collectFromPkg` consult directly;
tokens and the symbol descriptor only feed the score, which is abstracted
as an oracle. -/
structure SymQuery where
  kind : Nat
  filter : String
  file : String
  dir : String
deriving DecidableEq, Repr

/-- `collectFromPkg` + `resultSorter.Collect` from `symbol.go`: walk the
package's symbols, drop non-exported ones under `is:exported`, and record
each remaining symbol whose score is positive. -/
def collectFromPkg (scoreFn : SymbolPair → Int) (q : SymQuery)
    (syms : List SymbolPair) (results : List ScoredSymbol) : List ScoredSymbol :=
  syms.foldl (fun results sym =>
    if q.filter = FilterExportedS ∧ ¬isExported sym then results
    else if scoreFn sym > 0 then results ++ [⟨scoreFn sym, sym⟩]
    else results) results

/-- `resultSorter.Less`: score descending, ties by container, then name,
then URI ascending. -/
def symLess (a b : ScoredSymbol) : Bool :=
  if a.score = b.score then
    if a.sym.container = b.sym.container then
      if a.sym.name = b.sym.name then decide (a.sym.uri < b.sym.uri)
      else decide (a.sym.name < b.sym.name)
    else decide (a.sym.container < b.sym.container)
  else decide (a.score > b.score)

/-- The non-strict order `sort.Sort` establishes on the results: `a` may
precede `b` iff `Less b a` fails. -/
def symLE (a b : ScoredSymbol) : Bool := !(symLess b a)

/-- The sort key realised by `resultSorter.Less`: negated score, then
container, name and URI, compared lexicographically. -/
def symKey (a : ScoredSymbol) : Int ×ₗ (String ×ₗ (String ×ₗ String)) :=
  toLex (-a.score, toLex (a.sym.container, toLex (a.sym.name, a.sym.uri)))

/-- The sort order of the claim, spelled out: score descending, ties by
container ascending, then name ascending, then URI ascending. -/
def symOrder (a b : ScoredSymbol) : Prop :=
  b.score < a.score ∨
    (a.score = b.score ∧
      (a.sym.container < b.sym.container ∨
        (a.sym.container = b.sym.container ∧
          (a.sym.name < b.sym.name ∨
            (a.sym.name = b.sym.name ∧ a.sym.uri ≤ b.sym.uri)))))

/-- A cached package as the workspace symbol walk consumes it. -/
structure SymPkg where
  pkgPath : String
  filenames : List String
  syms : List SymbolPair
deriving Repr

/-- `handleSymbol` from `symbol.go`: walk the cached packages (skipping
on the file filter via `util.PathEqual`, on the dir filter, and once the
collected count has reached the limit), collect scored symbols, sort by
`resultSorter.Less`, and truncate to `limit` when positive.  `PathEqual`
and the score live outside `symbol.go` and are oracles. -/
def handleSymbol (pathEq : String → String → Bool) (scoreFn : SymbolPair → Int)
    (q : SymQuery) (limit : Int) (pkgs : List SymPkg) : List ScoredSymbol :=
  let results := pkgs.foldl (fun results pkg =>
    if q.file ≠ "" ∧ ¬(pkg.filenames.any (fun f => pathEq f q.file)) then results
    else if q.filter = FilterDirS ∧ ¬pathEq pkg.pkgPath q.dir then results
    else if limit ≤ (results.length : Int) then results
    else collectFromPkg scoreFn q pkg.syms results) []
  let sorted := results.mergeSort symLE
  if (sorted.length : Int) > limit ∧ limit > 0 then sorted.take limit.toNat
  else sorted

/-- `handleWorkspaceSymbol`: default the limit to 50 when the client sent
none (`params.Limit == 0`) and run `handleSymbol`.  (Its query rewriting
— joining `Dir` onto the root import path and deriving a dir filter from
a descriptor `id` — only rewrites the query record fed to the score and
filters and is folded into `q`.) -/
def handleWorkspaceSymbol (pathEq : String → String → Bool)
    (scoreFn : SymbolPair → Int) (q : SymQuery) (paramsLimit : Int)
    (pkgs : List SymPkg) : List ScoredSymbol :=
  let limit := if paramsLimit = 0 then 50 else paramsLimit
  handleSymbol pathEq scoreFn q limit pkgs

/-! The query DSL (`Query.String` / `ParseQuery`) is modelled at the byte
level: Go strings become `List Char`, `strings.ToLower` becomes ASCII
case folding. -/

/-- Go strings, viewed as character lists for the parsing claims. -/
abbrev GoStr := List Char

/-- `unicode.IsSpace` restricted to ASCII (what `strings.Fields` splits
on). -/
def isSpaceGo (c : Char) : Bool :=
  c = ' ' || c = '\t' || c = '\n' || c = '\x0b' || c = '\x0c' || c = '\r'

/-- Shared splitter behind `strings.Fields` and `strings.FieldsFunc`:
split at every separator character and drop empty pieces; `acc` holds the
current piece reversed. -/
def splitDropAux (p : Char → Bool) (acc : GoStr) : GoStr → List GoStr
  | [] => if acc.isEmpty then [] else [acc.reverse]
  | c :: cs =>
    if p c then
      if acc.isEmpty then splitDropAux p [] cs
      else acc.reverse :: splitDropAux p [] cs
    else splitDropAux p (c :: acc) cs

/-- `strings.Fields`. -/
def goFields (s : GoStr) : List GoStr := splitDropAux isSpaceGo [] s

/-- The period-or-slash separator of `ParseQuery`'s sub-token split. -/
def isDotSlash (c : Char) : Bool := c = '.' || c = '/'

/-- The `strings.FieldsFunc(field, '.' or '/')` split of `ParseQuery`. -/
def goFieldsDotSlash (s : GoStr) : List GoStr := splitDropAux isDotSlash [] s

/-- `strings.ToLower` on one character (ASCII model). -/
def toLowerGo (c : Char) : Char :=
  if 'A' ≤ c ∧ c ≤ 'Z' then Char.ofNat (c.toNat + 32) else c

/-- `strings.ToLower`. -/
def goToLower (s : GoStr) : GoStr := s.map toLowerGo

/-- `strings.TrimSpace`. -/
def trimGo (s : GoStr) : GoStr :=
  ((s.dropWhile isSpaceGo).reverse.dropWhile isSpaceGo).reverse

/-- `queryJoin` from `symbol.go`: `TrimSpace(s + " " + e)`. -/
def queryJoin (s e : GoStr) : GoStr := trimGo (s ++ ' ' :: e)

/-- `FilterExported` as the byte-level DSL sees it. -/
def FilterExportedG : GoStr := "exported".toList

/-- `FilterDir` likewise. -/
def FilterDirG : GoStr := "dir".toList

/-- The `keywords` map of `symbol.go` with the `lsp.SymbolKind` numbers
(`package=4, type=5 (Class), method=6, field=8, func=12 (Function),
var=13 (Variable), const=14 (Constant)`), as an association list (the Go
map's iteration order is unspecified, but at most one keyword matches a
given kind, all kinds being distinct). -/
def keywords : List (GoStr × Nat) :=
  [("package".toList, 4), ("type".toList, 5), ("method".toList, 6),
   ("field".toList, 8), ("func".toList, 12), ("var".toList, 13),
   ("const".toList, 14)]

/-- The `Query` structure of `symbol.go` at the byte level (the `Symbol`
descriptor is not produced by `ParseQuery` nor rendered by `String`). -/
structure GoQuery where
  kind : Nat
  filter : GoStr
  file : GoStr
  dir : GoStr
  tokens : List GoStr
deriving DecidableEq, Repr

/-- The zero `Query` that `ParseQuery` starts from. -/
def emptyQuery : GoQuery := ⟨0, [], [], [], []⟩

/-- `Query.String` from `symbol.go`: render the filter (`is:exported`, or
`dir:<Dir>` via `fmt.Sprintf("%s:%s", q.Filter, q.Dir)`), then the
keyword of a non-zero kind, then the tokens, all joined by `queryJoin`. -/
def queryString (q : GoQuery) : GoStr :=
  let s : GoStr := []
  let s := if q.filter = FilterExportedG then queryJoin s ("is:exported".toList)
           else if q.filter = FilterDirG then queryJoin s (q.filter ++ ':' :: q.dir)
           else s
  let s := if q.kind ≠ 0 then
             (keywords.filter (fun kv => kv.2 = q.kind)).foldl
               (fun s kv => queryJoin s kv.1) s
           else s
  q.tokens.foldl queryJoin s

/-- One field of `ParseQuery`: a `dir:` filter, the `is:exported` filter,
or a period/slash-split run of sub-tokens where keywords set the kind and
everything else is appended to the tokens. -/
def parseField (qu : GoQuery) (field : GoStr) : GoQuery :=
  if ("dir:".toList).isPrefixOf field then
    { qu with filter := FilterDirG, dir := field.drop 4 }
  else if field = ("is:exported".toList) then
    { qu with filter := FilterExportedG }
  else
    (goFieldsDotSlash field).foldl (fun qu tok =>
      match keywords.find? (fun kv => kv.1 = tok) with
      | some kv => { qu with kind := kv.2 }
      | none => { qu with tokens := qu.tokens ++ [tok] }) qu

/-- `ParseQuery` from `symbol.go`: lower-case the raw query, split into
space-delimited fields, and fold `parseField` over them. -/
def ParseQuery (s : GoStr) : GoQuery :=
  (goFields (goToLower s)).foldl parseField emptyQuery

/-! The hover pretty-printer `prettyPrintTypesString`, also at the byte
level. -/

/-- The indentation the pretty-printer emits: four spaces per depth. -/
def indentGo (depth : Nat) : GoStr := List.replicate (4 * depth) ' '

/-- The character loop of `prettyPrintTypesString`. `none` models the
`return s` bail-outs (an open brace as last character, or a close brace
below depth zero); the `i++` skips after `;`, `\` and `{}` drop the
following character. -/
def ppCore (depth : Nat) (inTag : Bool) : GoStr → Option GoStr
  | [] => some []
  | [c] =>
    if c = ';' then
      if inTag then some [';'] else some ('\n' :: indentGo depth)
    else if c = '"' then some ['`']
    else if c = '\\' then some ['"']
    else if c = '\x7b' then none
    else if c = '\x7d' then
      if depth = 0 then none else some ['\n', '\x7d']
    else some [c]
  | c :: n :: rest =>
    if c = ';' then
      if inTag then (ppCore depth inTag (n :: rest)).map (';' :: ·)
      else (ppCore depth inTag rest).map (fun t => '\n' :: (indentGo depth ++ t))
    else if c = '"' then (ppCore depth (!inTag) (n :: rest)).map ('`' :: ·)
    else if c = '\\' then (ppCore depth inTag rest).map ('"' :: ·)
    else if c = '\x7b' then
      if n = '\x7d' then (ppCore depth inTag rest).map (fun t => '\x7b' :: '\x7d' :: t)
      else (ppCore (depth + 1) inTag (n :: rest)).map
        (fun t => ' ' :: '\x7b' :: '\n' :: (indentGo (depth + 1) ++ t))
    else if c = '\x7d' then
      if depth = 0 then none
      else (ppCore (depth - 1) inTag (n :: rest)).map (fun t => '\n' :: '\x7d' :: t)
    else (ppCore depth inTag (n :: rest)).map (c :: ·)

/-- `prettyPrintTypesString` from the hover file: inputs ending in an
empty brace pair collapse to the empty string; otherwise the character
loop runs from depth 0 outside a tag, and a bail-out returns the input
unchanged. -/
def prettyPrintTypesString (s : GoStr) : GoStr :=
  if ("\x7b\x7d".toList).isSuffixOf s then []
  else
    match ppCore 0 false s with
    | none => s
    | some t => t

/-- Space-separated concatenation of query fields (the normal form that
`queryJoin`-folding produces on canonical fields). -/
def joinSep (c : Char) : List GoStr → GoStr
  | [] => []
  | [f] => f
  | f :: fs => f ++ c :: joinSep c fs

/-- The fields `Query.String` emits, in order: the optional filter field,
the keyword of a non-zero kind, then the tokens. -/
def queryFields (q : GoQuery) : List GoStr :=
  (if q.filter = FilterExportedG then [("is:exported".toList)]
   else if q.filter = FilterDirG then [q.filter ++ ':' :: q.dir]
   else []) ++
  ((if q.kind ≠ 0 then (keywords.filter (fun kv => kv.2 = q.kind)).map (·.1)
    else []) ++
   q.tokens)

/-- A token that survives the render/parse round trip unchanged:
non-empty, already lower-case, free of whitespace and of the `.`/`/`
sub-token separators, not a kind keyword, not the `is:exported` field and
not a `dir:` filter. -/
def canonicalToken (t : GoStr) : Prop :=
  t ≠ [] ∧ goToLower t = t ∧
    (∀ c ∈ t, isSpaceGo c = false ∧ isDotSlash c = false) ∧
    (∀ kv ∈ keywords, t ≠ kv.1) ∧
    t ≠ ("is:exported".toList) ∧
    ("dir:".toList).isPrefixOf t = false

/-- A `Query` on which `ParseQuery ∘ Query.String` can be the identity on
`Filter`, `Kind`, `Dir` and `Tokens`: the kind is zero or one of the
seven keyword kinds, the filter is one of the three representable
states (with a lower-case, whitespace-free `Dir` only under the dir
filter), and every token is canonical. -/
def canonicalQuery (q : GoQuery) : Prop :=
  (q.kind = 0 ∨ q.kind ∈ keywords.map (fun kv => kv.2)) ∧
    (q.filter = FilterExportedG ∧ q.dir = [] ∨
      q.filter = FilterDirG ∧ goToLower q.dir = q.dir ∧
        (∀ c ∈ q.dir, isSpaceGo c = false) ∨
      q.filter = [] ∧ q.dir = []) ∧
    (∀ t ∈ q.tokens, canonicalToken t)

instance : DecidablePred canonicalToken := fun t => by
  unfold canonicalToken
  infer_instance

instance : DecidablePred canonicalQuery := fun q => by
  unfold canonicalQuery
  infer_instance

/-- The characters `prettyPrintTypesString` transforms; strings free of
them pass through the printer unchanged. -/
def ppSpecial (c : Char) : Bool :=
  c = ';' || c = '"' || c = '\\' || c = '\x7b' || c = '\x7d'

/-!  ## Theorems  -/

section Theorems

/-- Helper: `sameObj` holds exactly on the four-way disjunction of the
specification (identity, exported same-path-same-name pair, unowned
same-name pair, `PkgName`s of the same imported package). -/
lemma sameObj_iff (x y : GoObj) :
    sameObj x y = true ↔
      x = y ∨
      (∃ p, x.pkg = some p ∧ y.pkg = some p ∧ x.name = y.name ∧
        x.exported = true ∧ y.exported = true) ∨
      (x.pkg = none ∧ y.pkg = none ∧ x.name = y.name) ∨
      (∃ i, x.pkgNameImported = some i ∧ y.pkgNameImported = some i) := by
  unfold sameObj
  rcases hx : x.pkg with _ | px <;> rcases hy : y.pkg with _ | py <;>
    rcases hxi : x.pkgNameImported with _ | ix <;>
    rcases hyi : y.pkgNameImported with _ | iy <;>
    split_ifs with h1 h2 h3 <;> simp_all <;>
    constructor <;> intro h <;>
      first
        | exact h.symm
        | exact Or.inr h.symm
        | rcases h with h | h
          · exact absurd (h2 h.1.symm h.2.1 h.2.2.1) (by simp [h.2.2.2])
          · exact h.symm

/-- C4: the `sameObj` equivalence used by reference search is reflexive
and symmetric, and two objects match exactly when they are the identical
pointer, or both are `PkgName`s importing the same package, or both have
the same owning package path and name and are both exported, or both are
unowned builtins with the same name. -/
theorem sameObj_refl_symm_characterization :
    (∀ x : GoObj, sameObj x x = true) ∧
    (∀ x y : GoObj, sameObj x y = true → sameObj y x = true) ∧
    (∀ x y : GoObj, sameObj x y = true ↔
      x = y ∨
      (∃ i, x.pkgNameImported = some i ∧ y.pkgNameImported = some i) ∨
      (∃ p, x.pkg = some p ∧ y.pkg = some p ∧ x.name = y.name ∧
        x.exported = true ∧ y.exported = true) ∨
      (x.pkg = none ∧ y.pkg = none ∧ x.name = y.name)) := by
  refine ⟨fun x => ?_, fun x y h => ?_, fun x y => ?_⟩
  · exact (sameObj_iff x x).mpr (Or.inl rfl)
  · rw [sameObj_iff] at h ⊢
    rcases h with h | ⟨p, h1, h2, h3, h4, h5⟩ | ⟨h1, h2, h3⟩ | ⟨i, h1, h2⟩
    · exact Or.inl h.symm
    · exact Or.inr (Or.inl ⟨p, h2, h1, h3.symm, h5, h4⟩)
    · exact Or.inr (Or.inr (Or.inl ⟨h2, h1, h3.symm⟩))
    · exact Or.inr (Or.inr (Or.inr ⟨i, h2, h1⟩))
  · rw [sameObj_iff]
    constructor
    · rintro (h | ⟨p, h⟩ | h | ⟨i, h⟩)
      · exact Or.inl h
      · exact Or.inr (Or.inr (Or.inl ⟨p, h⟩))
      · exact Or.inr (Or.inr (Or.inr h))
      · exact Or.inr (Or.inl ⟨i, h⟩)
    · rintro (h | ⟨i, h⟩ | ⟨p, h⟩ | h)
      · exact Or.inl h
      · exact Or.inr (Or.inr (Or.inr ⟨i, h⟩))
      · exact Or.inr (Or.inl ⟨p, h⟩)
      · exact Or.inr (Or.inr (Or.inl h))

/-- Witness for C4 at concrete objects: symmetry applied to an exported
same-package pair (two distinct objects matched by the exported rule). -/
theorem sameObj_refl_symm_characterization_witness :
    sameObj ⟨2, some "p", "N", true, none, false, 5⟩
      ⟨1, some "p", "N", true, none, false, 3⟩ = true :=
  sameObj_refl_symm_characterization.2.1
    ⟨1, some "p", "N", true, none, false, 3⟩
    ⟨2, some "p", "N", true, none, false, 5⟩ (by decide)

/-- Helper: the reference-collection fold, for any fixed defining package
path `D`, filters the walked packages by the skip condition and
concatenates their matching uses in walk order. -/
lemma findReferences_fold_eq (q : GoObj) (D : String) :
    ∀ (pkgs : List SrcPkg) (acc : List GoIdent),
      pkgs.foldl (fun refs pkg =>
          if D ≠ BuiltinPkg ∧ D ∉ pkg.imports ∧ pkg.pkgPath ≠ D then refs
          else
            match pkg.typesInfo with
            | none => refs
            | some uses =>
              refs ++ (uses.filter (fun u => sameObj q u.2)).map (·.1)) acc
        = acc ++
          (pkgs.filter (fun pkg =>
            !decide (D ≠ BuiltinPkg ∧ D ∉ pkg.imports ∧ pkg.pkgPath ≠ D))).flatMap
            (usesMatches q) := by
  intro pkgs
  induction pkgs with
  | nil => simp
  | cons pkg pkgs ih =>
    intro acc
    rw [List.foldl_cons, List.filter_cons]
    by_cases hc : D ≠ BuiltinPkg ∧ D ∉ pkg.imports ∧ pkg.pkgPath ≠ D
    · rw [if_pos hc, ih acc]
      have hdrop : (!decide (D ≠ BuiltinPkg ∧ D ∉ pkg.imports ∧ pkg.pkgPath ≠ D)) = false := by
        simp [hc]
      rw [hdrop]
      simp
    · have hkeep : (!decide (D ≠ BuiltinPkg ∧ D ∉ pkg.imports ∧ pkg.pkgPath ≠ D)) = true := by
        simp only [Bool.not_eq_true', decide_eq_false_iff_not]
        exact hc
      rw [if_neg hc, hkeep]
      rcases hti : pkg.typesInfo with _ | uses
      · rw [ih]
        simp [usesMatches, hti]
      · rw [ih]
        simp [usesMatches, hti]

/-- C1: for a queried object owned by a package `P` other than the
builtin sentinel, `findReferences` collects identifier uses exactly from
the cached packages that directly import `P` or are `P` itself; for a
builtin-owned query (no package), the filter is skipped and every cached
package is scanned. -/
theorem findReferences_import_filter (q : GoObj) (pkgs : List SrcPkg) :
    (∀ P, q.pkg = some P → P ≠ BuiltinPkg →
      findReferences q pkgs =
        (pkgs.filter (fun pkg =>
          decide (P ∈ pkg.imports ∨ pkg.pkgPath = P))).flatMap (usesMatches q)) ∧
    (q.pkg = none → findReferences q pkgs = pkgs.flatMap (usesMatches q)) := by
  constructor
  · intro P hP hPb
    have hD : defPkgPath q = P := by simp [defPkgPath, hP]
    unfold findReferences
    rw [findReferences_fold_eq q (defPkgPath q) pkgs [], hD, List.nil_append]
    congr 1
    apply List.filter_congr
    intro pkg _
    rw [Bool.eq_iff_iff]
    simp only [Bool.not_eq_true', decide_eq_false_iff_not, decide_eq_true_eq]
    constructor
    · intro h
      by_contra hcon
      push_neg at hcon
      exact h ⟨hPb, fun hmem => hcon.1 hmem, hcon.2⟩
    · rintro (h | h) ⟨_, h2, h3⟩
      · exact h2 h
      · exact h3 h
  · intro hP
    have hD : defPkgPath q = BuiltinPkg := by simp [defPkgPath, hP]
    unfold findReferences
    rw [findReferences_fold_eq q (defPkgPath q) pkgs [], hD, List.nil_append]
    simp

/-- Witness for C1 at a concrete cache: a query owned by package `p`
(collected only from the importer and `p` itself) and a builtin query
(collected from every package). -/
theorem findReferences_import_filter_witness :
    (findReferences ⟨1, some "p", "N", true, none, false, 3⟩
        [⟨"q", ["p"], some [(⟨7, "N"⟩, ⟨1, some "p", "N", true, none, false, 3⟩)]⟩,
         ⟨"r", [], some [(⟨9, "N"⟩, ⟨1, some "p", "N", true, none, false, 3⟩)]⟩]
      = [⟨7, "N"⟩]) ∧
    (findReferences ⟨5, none, "len", false, none, true, 0⟩
        [⟨"q", ["p"], some [(⟨4, "len"⟩, ⟨6, none, "len", false, none, true, 0⟩)]⟩,
         ⟨"r", [], some [(⟨8, "len"⟩, ⟨6, none, "len", false, none, true, 0⟩)]⟩]
      = [⟨4, "len"⟩, ⟨8, "len"⟩]) := by
  constructor
  · rw [(findReferences_import_filter _ _).1 "p" rfl (by decide)]
    decide
  · rw [(findReferences_import_filter _ _).2 rfl]
    decide

/-- C5: when the resolver finds nothing identifier-like at the cursor
(`typeCheck` reports `InvalidNodeError`, as on a comment, string literal
or whitespace), the references handler and the implementation handler
both return an empty result list with a nil error. -/
theorem invalidNode_yields_empty_success (wr : RefsWorld) (p : RefParams)
    (wi : ImplWorld) (ip : LspPosition) :
    (wr.typeCheck p.pos = .invalidNode →
      handleTextDocumentReferences wr p = .ok []) ∧
    (wi.typeCheck ip = .invalidNode →
      handleTextDocumentImplementation wi ip = .ok []) := by
  constructor
  · intro h
    simp [handleTextDocumentReferences, doHandleTextDocumentReferences, h]
  · intro h
    simp [handleTextDocumentImplementation, h]

/-- Witness for C5: concrete worlds whose resolver reports an invalid
node everywhere. -/
theorem invalidNode_yields_empty_success_witness :
    handleTextDocumentReferences
        ⟨fun _ => .invalidNode, fun _ _ => none, fun _ _ => none, [],
          fun _ _ => ⟨"", ⟨0, 0, 0, 0⟩⟩⟩
        ⟨⟨0, 0⟩, false, 0⟩ = .ok [] ∧
      handleTextDocumentImplementation
        ⟨fun _ => .invalidNode, fun _ _ => .error ()⟩ ⟨0, 0⟩ = .ok [] :=
  ⟨(invalidNode_yields_empty_success
      ⟨fun _ => .invalidNode, fun _ _ => none, fun _ _ => none, [],
        fun _ _ => ⟨"", ⟨0, 0, 0, 0⟩⟩⟩
      ⟨⟨0, 0⟩, false, 0⟩
      ⟨fun _ => .invalidNode, fun _ _ => .error ()⟩ ⟨0, 0⟩).1 rfl,
   (invalidNode_yields_empty_success
      ⟨fun _ => .invalidNode, fun _ _ => none, fun _ _ => none, [],
        fun _ _ => ⟨"", ⟨0, 0, 0, 0⟩⟩⟩
      ⟨⟨0, 0⟩, false, 0⟩
      ⟨fun _ => .invalidNode, fun _ _ => .error ()⟩ ⟨0, 0⟩).2 rfl⟩

/-- C2: for the references and definition requests, a failing first
resolution (object not found, or an `InvalidNode` error) makes the
handler return exactly the result of one retry at `character - 1`, and a
successful non-empty first resolution is returned unchanged with no
retry. -/
theorem off_by_one_retry (w : RefsWorld) (p : RefParams)
    (wd : XDefWorld) (pos : LspPosition) :
    (∀ e : RefErr, doHandleTextDocumentReferences w p = .error e →
      e = .objNotFound ∨ e = .invalidNode →
      handleTextDocumentReferences w p =
        doHandleTextDocumentReferences w (decCharRef p)) ∧
    (∀ locs, doHandleTextDocumentReferences w p = .ok locs → locs ≠ [] →
      handleTextDocumentReferences w p = .ok locs) ∧
    (∀ e : DefErr, doHandleXDefinition wd pos = .error e →
      e = .notFound ∨ e = .invalidNode →
      handleXDefinition wd pos =
        doHandleXDefinition wd { pos with character := pos.character - 1 }) ∧
    (∀ symbols, doHandleXDefinition wd pos = .ok symbols → symbols ≠ [] →
      handleXDefinition wd pos = .ok symbols) := by
  refine ⟨fun e he _ => ?_, fun locs hl _ => ?_, fun e he _ => ?_, fun symbols hs _ => ?_⟩
  · rw [handleTextDocumentReferences, he]
  · rw [handleTextDocumentReferences, hl]
  · rw [handleXDefinition, he]
  · rw [handleXDefinition, hs]

/-- Witness for C2 at concrete worlds: a missing object triggers exactly
one retry (which here finds the object at `character - 1`), and a
non-empty success is returned unchanged. -/
theorem off_by_one_retry_witness :
    (handleTextDocumentReferences
        ⟨fun _ => .ok (⟨"p", [], some []⟩, 0),
          fun _ _ => some (.ident ⟨0, "x"⟩), fun _ _ => none, [],
          fun _ _ => ⟨"u", ⟨0, 0, 0, 0⟩⟩⟩
        ⟨⟨0, 1⟩, false, 0⟩ =
      doHandleTextDocumentReferences
        ⟨fun _ => .ok (⟨"p", [], some []⟩, 0),
          fun _ _ => some (.ident ⟨0, "x"⟩), fun _ _ => none, [],
          fun _ _ => ⟨"u", ⟨0, 0, 0, 0⟩⟩⟩
        (decCharRef ⟨⟨0, 1⟩, false, 0⟩)) ∧
    (handleXDefinition
        ⟨fun _ => .ok (⟨"p", [], some []⟩, 0), fun _ _ => some (.ident ⟨0, "x"⟩),
          fun _ _ => .ok [⟨⟨"u", ⟨0, 0, 0, 0⟩⟩, none⟩]⟩ ⟨0, 1⟩ =
      .ok [⟨⟨"u", ⟨0, 0, 0, 0⟩⟩, none⟩]) := by
  constructor
  · exact (off_by_one_retry
      ⟨fun _ => .ok (⟨"p", [], some []⟩, 0),
        fun _ _ => some (.ident ⟨0, "x"⟩), fun _ _ => none, [],
        fun _ _ => ⟨"u", ⟨0, 0, 0, 0⟩⟩⟩
      ⟨⟨0, 1⟩, false, 0⟩
      ⟨fun _ => .ok (⟨"p", [], some []⟩, 0), fun _ _ => some (.ident ⟨0, "x"⟩),
        fun _ _ => .ok [⟨⟨"u", ⟨0, 0, 0, 0⟩⟩, none⟩]⟩ ⟨0, 1⟩).1
      .objNotFound rfl (Or.inl rfl)
  · exact (off_by_one_retry
      ⟨fun _ => .ok (⟨"p", [], some []⟩, 0),
        fun _ _ => some (.ident ⟨0, "x"⟩), fun _ _ => none, [],
        fun _ _ => ⟨"u", ⟨0, 0, 0, 0⟩⟩⟩
      ⟨⟨0, 1⟩, false, 0⟩
      ⟨fun _ => .ok (⟨"p", [], some []⟩, 0), fun _ _ => some (.ident ⟨0, "x"⟩),
        fun _ _ => .ok [⟨⟨"u", ⟨0, 0, 0, 0⟩⟩, none⟩]⟩ ⟨0, 1⟩).2.2.2
      [⟨⟨"u", ⟨0, 0, 0, 0⟩⟩, none⟩] rfl (by simp)

/-- Helper: the collection fold of `refStreamAndCollect` keeps the
accumulated locations key-distinct, keeps every accumulated key in the
seen set, and only ever appends (in discovery order) locations drawn from
the identifiers it processes. -/
lemma refCollect_fold_invariant (locOf : GoPos → String → LspLoc) :
    ∀ (l : List GoIdent) (st : List String × List LspLoc),
      st.2.Pairwise (fun a b => formatLocation a ≠ formatLocation b) →
      (∀ loc ∈ st.2, formatLocation loc ∈ st.1) →
      (l.foldl (refCollectStep locOf) st).2.Pairwise
          (fun a b => formatLocation a ≠ formatLocation b) ∧
        (∀ loc ∈ (l.foldl (refCollectStep locOf) st).2,
          formatLocation loc ∈ (l.foldl (refCollectStep locOf) st).1) ∧
        ∃ t, (l.foldl (refCollectStep locOf) st).2 = st.2 ++ t ∧
          t.Sublist (l.map (fun id => locOf id.namePos id.name)) := by
  intro l
  induction l with
  | nil =>
    intro st h1 h2
    exact ⟨h1, h2, [], by simp, by simp⟩
  | cons id l ih =>
    intro st h1 h2
    rw [List.foldl_cons]
    by_cases huri : (locOf id.namePos id.name).uri = ""
    · have hstep : refCollectStep locOf st id = st := by
        simp [refCollectStep, huri]
      rw [hstep]
      obtain ⟨p1, p2, t, ht, hs⟩ := ih st h1 h2
      exact ⟨p1, p2, t, ht, hs.cons _⟩
    · by_cases hkey : formatLocation (locOf id.namePos id.name) ∈ st.1
      · have hstep : refCollectStep locOf st id = st := by
          simp [refCollectStep, huri, hkey]
        rw [hstep]
        obtain ⟨p1, p2, t, ht, hs⟩ := ih st h1 h2
        exact ⟨p1, p2, t, ht, hs.cons _⟩
      · have hstep : refCollectStep locOf st id =
            (formatLocation (locOf id.namePos id.name) :: st.1,
              st.2 ++ [locOf id.namePos id.name]) := by
          simp [refCollectStep, huri, hkey]
        rw [hstep]
        have h1' : (st.2 ++ [locOf id.namePos id.name]).Pairwise
            (fun a b => formatLocation a ≠ formatLocation b) := by
          rw [List.pairwise_append]
          refine ⟨h1, by simp, ?_⟩
          intro a ha b hb
          simp only [List.mem_singleton] at hb
          subst hb
          intro heq
          exact hkey (heq ▸ h2 a ha)
        have h2' : ∀ loc ∈ st.2 ++ [locOf id.namePos id.name],
            formatLocation loc ∈
              formatLocation (locOf id.namePos id.name) :: st.1 := by
          intro loc hloc
          rcases List.mem_append.mp hloc with h | h
          · exact List.mem_cons_of_mem _ (h2 loc h)
          · simp only [List.mem_singleton] at h
            subst h
            exact List.mem_cons_self _ _
        obtain ⟨p1, p2, t, ht, hs⟩ :=
          ih (formatLocation (locOf id.namePos id.name) :: st.1,
            st.2 ++ [locOf id.namePos id.name]) h1' h2'
        refine ⟨p1, p2, locOf id.namePos id.name :: t, ?_, hs.cons₂ _⟩
        rw [ht]
        simp
 
/-- C3: the location list returned by `refStreamAndCollect` has pairwise
distinct textual `(uri, range)` keys; `XLimit = 0` applies no truncation
(the whole identifier list is collected); a positive `XLimit` bounds the
result length; and the output preserves discovery order (it is a sublist
of the mapped locations in input order). -/
theorem refStreamAndCollect_dedup_limit (locOf : GoPos → String → LspLoc)
    (refs : List GoIdent) (limit : Int) :
    (refStreamAndCollect locOf refs limit).Pairwise
        (fun a b => formatLocation a ≠ formatLocation b) ∧
      (limit = 0 → refStreamAndCollect locOf refs limit =
        (refs.foldl (refCollectStep locOf) ([], [])).2) ∧
      (0 < limit → ((refStreamAndCollect locOf refs limit).length : Int) ≤ limit) ∧
      (refStreamAndCollect locOf refs limit).Sublist
        (refs.map (fun id => locOf id.namePos id.name)) := by
  have key := refCollect_fold_invariant locOf
    (refs.take (if (if limit = 0 then (refs.length : Int) else limit) <
        (refs.length : Int) then
          (if limit = 0 then (refs.length : Int) else limit).toNat
        else refs.length))
    ([], []) (by simp) (by simp)
  obtain ⟨p1, _, t, ht, hs⟩ := key
  have hout : refStreamAndCollect locOf refs limit = t := by
    rw [refStreamAndCollect]
    rw [ht]
    simp
  refine ⟨?_, ?_, ?_, ?_⟩
  · rw [hout]
    rw [ht] at p1
    simpa using p1
  · intro h0
    subst h0
    rw [refStreamAndCollect]
    simp
  · intro hpos
    have hne : limit ≠ 0 := by omega
    have hlen : t.length ≤ (refs.take (if (if limit = 0 then (refs.length : Int)
        else limit) < (refs.length : Int) then
          (if limit = 0 then (refs.length : Int) else limit).toNat
        else refs.length)).length := by
      simpa using hs.length_le
    rw [hout]
    rw [if_neg hne] at hlen
    by_cases hlt : (limit : Int) < (refs.length : Int)
    · rw [if_pos hlt] at hlen
      have h3 := List.length_take_le limit.toNat refs
      have h4 : (limit.toNat : Int) = limit := Int.toNat_of_nonneg (by omega)
      omega
    · rw [if_neg hlt] at hlen
      have h3 := List.length_take_le refs.length refs
      omega
  · rw [hout]
    refine hs.trans ?_
    have : (refs.take (if (if limit = 0 then (refs.length : Int) else limit) <
        (refs.length : Int) then
          (if limit = 0 then (refs.length : Int) else limit).toNat
        else refs.length)).map (fun id => locOf id.namePos id.name)
        = (refs.map (fun id => locOf id.namePos id.name)).take
          (if (if limit = 0 then (refs.length : Int) else limit) <
            (refs.length : Int) then
              (if limit = 0 then (refs.length : Int) else limit).toNat
            else refs.length) := by
      rw [List.map_take]
    rw [this]
    exact List.take_sublist _ _

/-- Witness for C3's conditional parts at a concrete run: `XLimit = 0`
collects everything, and `XLimit = 1` truncates to one location. -/
theorem refStreamAndCollect_dedup_limit_witness :
    (refStreamAndCollect (fun p n => ⟨"u", ⟨p, 0, p, n.length⟩⟩)
        [⟨1, "a"⟩, ⟨1, "a"⟩, ⟨2, "b"⟩] 0 =
      ([(⟨1, "a"⟩ : GoIdent), ⟨1, "a"⟩, ⟨2, "b"⟩].foldl
        (refCollectStep (fun p n => ⟨"u", ⟨p, 0, p, n.length⟩⟩)) ([], [])).2) ∧
    ((refStreamAndCollect (fun p n => ⟨"u", ⟨p, 0, p, n.length⟩⟩)
        [⟨1, "a"⟩, ⟨1, "a"⟩, ⟨2, "b"⟩] 1).length : Int) ≤ 1 :=
  ⟨(refStreamAndCollect_dedup_limit (fun p n => ⟨"u", ⟨p, 0, p, n.length⟩⟩)
      [⟨1, "a"⟩, ⟨1, "a"⟩, ⟨2, "b"⟩] 0).2.1 rfl,
   (refStreamAndCollect_dedup_limit (fun p n => ⟨"u", ⟨p, 0, p, n.length⟩⟩)
      [⟨1, "a"⟩, ⟨1, "a"⟩, ⟨2, "b"⟩] 1).2.2.1 (by omega)⟩

/-- Helper: the `implements` loop is the concatenation of the
per-candidate bucket increments, in candidate order. -/
lemma implLoop_eq {Ty : Type} (o : TypeOracle Ty) (T : Ty) :
    ∀ l : List Ty,
      implLoop o T l =
        (l.flatMap (fun U => (implContrib o T U).1),
         l.flatMap (fun U => (implContrib o T U).2.1),
         l.flatMap (fun U => (implContrib o T U).2.2)) := by
  intro l
  induction l with
  | nil => rfl
  | cons U l ih => simp [implLoop, ih]

/-- C6: with a non-empty interface query `T` and a concrete candidate
`U`, the `implements` search records `U` in the `to` bucket exactly when
`U` is assignable to `T` and records `*U` when `*U` is assignable while
`U` itself is not (the pointer form arises only in that case); an empty
interface `T` records nothing and the result is empty. -/
theorem implements_interface_concrete_to (Ty : Type) (o : TypeOracle Ty)
    (toLoc : Ty → Option LspLoc) (T : Ty) (allNamed : List Ty) :
    (o.isInterface T = true → o.msetLen T = 0 →
      implementsBuckets o T allNamed = ([], [], []) ∧
        implementsResult o toLoc T allNamed = []) ∧
    (o.isInterface T = true → o.msetLen T ≠ 0 →
      ∀ U, o.isInterface U = false →
        implContrib o T U =
          (if o.assignable U T then ([U], [], [])
           else if o.assignable (o.newPointer U) T then ([o.newPointer U], [], [])
           else ([], [], []))) ∧
    (o.isInterface T = true → o.msetLen T ≠ 0 →
      ∀ U ∈ allNamed, o.isInterface U = false →
        (o.assignable U T = true → U ∈ (implementsBuckets o T allNamed).1) ∧
        (o.assignable U T = false → o.assignable (o.newPointer U) T = true →
          o.newPointer U ∈ (implementsBuckets o T allNamed).1)) := by
  refine ⟨fun hT h0 => ?_, fun hT h0 U hU => ?_, fun hT h0 U hmem hU => ⟨?_, ?_⟩⟩
  · have hb : implementsBuckets o T allNamed = ([], [], []) := by
      rw [implementsBuckets, implLoop_eq]
      refine Prod.ext ?_ (Prod.ext ?_ ?_) <;>
        · simp only []
          rw [List.flatMap_eq_nil_iff]
          intro U _
          simp [implContrib, hT, h0]
    refine ⟨hb, ?_⟩
    rw [implementsResult, hb]
    simp
  · simp [implContrib, hT, h0, hU]
  · intro ha
    rw [implementsBuckets, implLoop_eq]
    simp only []
    rw [List.mem_flatMap]
    exact ⟨U, hmem, by simp [implContrib, hT, h0, hU, ha]⟩
  · intro ha hp
    rw [implementsBuckets, implLoop_eq]
    simp only []
    rw [List.mem_flatMap]
    exact ⟨U, hmem, by simp [implContrib, hT, h0, hU, ha, hp]⟩

/-- Witness for C6 over a small concrete type universe (`Ty := Nat`,
type 0 a one-method interface, 1 assignable to it, 2 assignable only as
a pointer `2 + 100`, and a second oracle whose interfaces are all
empty). -/
theorem implements_interface_concrete_to_witness :
    (implementsBuckets
        ⟨fun n => decide (n = 0), fun _ => 0, fun a b => decide (a = b),
          fun _ _ => false, fun n => n + 100, fun _ => ""⟩
        0 [1, 2] = ([], [], []) ∧
      implementsResult
        ⟨fun n => decide (n = 0), fun _ => 0, fun a b => decide (a = b),
          fun _ _ => false, fun n => n + 100, fun _ => ""⟩
        (fun _ => none) 0 [1, 2] = []) ∧
    (1 ∈ (implementsBuckets
        ⟨fun n => decide (n = 0), fun _ => 1, fun a b => decide (a = b),
          fun a b => decide (b = 0 ∧ (a = 1 ∨ a = 102)), fun n => n + 100,
          fun _ => ""⟩
        0 [1, 2]).1) ∧
    ((2 : Nat) + 100 ∈ (implementsBuckets
        ⟨fun n => decide (n = 0), fun _ => 1, fun a b => decide (a = b),
          fun a b => decide (b = 0 ∧ (a = 1 ∨ a = 102)), fun n => n + 100,
          fun _ => ""⟩
        0 [1, 2]).1) := by
  refine ⟨?_, ?_, ?_⟩
  · exact (implements_interface_concrete_to Nat
      ⟨fun n => decide (n = 0), fun _ => 0, fun a b => decide (a = b),
        fun _ _ => false, fun n => n + 100, fun _ => ""⟩
      (fun _ => none) 0 [1, 2]).1 (by decide) rfl
  · exact ((implements_interface_concrete_to Nat
      ⟨fun n => decide (n = 0), fun _ => 1, fun a b => decide (a = b),
        fun a b => decide (b = 0 ∧ (a = 1 ∨ a = 102)), fun n => n + 100,
        fun _ => ""⟩
      (fun _ => none) 0 [1, 2]).2.2 (by decide) (by decide) 1 (by decide)
      (by decide)).1 (by decide)
  · exact ((implements_interface_concrete_to Nat
      ⟨fun n => decide (n = 0), fun _ => 1, fun a b => decide (a = b),
        fun a b => decide (b = 0 ∧ (a = 1 ∨ a = 102)), fun n => n + 100,
        fun _ => ""⟩
      (fun _ => none) 0 [1, 2]).2.2 (by decide) (by decide) 2 (by decide)
      (by decide)).2 (by decide) (by decide)

/-- Helper: under the `is:exported` filter, `collectFromPkg` only ever
adds exported symbols to the result list. -/
lemma collectFromPkg_exported (scoreFn : SymbolPair → Int) (q : SymQuery)
    (hq : q.filter = FilterExportedS) :
    ∀ (syms : List SymbolPair) (results : List ScoredSymbol),
      (∀ s ∈ results, isExported s.sym = true) →
      ∀ s ∈ collectFromPkg scoreFn q syms results, isExported s.sym = true := by
  intro syms
  induction syms with
  | nil =>
    intro results h
    simpa [collectFromPkg] using h
  | cons sym syms ih =>
    intro results h
    rw [collectFromPkg, List.foldl_cons]
    by_cases he : isExported sym = true
    · by_cases hsc : scoreFn sym > 0
      · rw [if_neg (by simp [he]), if_pos hsc]
        apply ih
        intro s hs
        rcases List.mem_append.mp hs with h1 | h1
        · exact h s h1
        · simp only [List.mem_singleton] at h1
          subst h1
          exact he
      · rw [if_neg (by simp [he]), if_neg hsc]
        exact ih results h
    · rw [if_pos ⟨hq, by simpa using he⟩]
      exact ih results h

/-- Helper: the package walk of `handleSymbol` preserves the
all-exported invariant of its accumulated results. -/
lemma handleSymbol_fold_exported (pathEq : String → String → Bool)
    (scoreFn : SymbolPair → Int) (q : SymQuery) (limit : Int)
    (hq : q.filter = FilterExportedS) :
    ∀ (pkgs : List SymPkg) (results : List ScoredSymbol),
      (∀ s ∈ results, isExported s.sym = true) →
      ∀ s ∈ pkgs.foldl (fun results pkg =>
          if q.file ≠ "" ∧ ¬(pkg.filenames.any (fun f => pathEq f q.file)) then results
          else if q.filter = FilterDirS ∧ ¬pathEq pkg.pkgPath q.dir then results
          else if limit ≤ (results.length : Int) then results
          else collectFromPkg scoreFn q pkg.syms results) results,
        isExported s.sym = true := by
  intro pkgs
  induction pkgs with
  | nil =>
    intro results h
    simpa using h
  | cons pkg pkgs ih =>
    intro results h
    rw [List.foldl_cons]
    split_ifs with h1 h2 h3
    · exact ih results h
    · exact ih results h
    · exact ih results h
    · exact ih _ (collectFromPkg_exported scoreFn q hq pkg.syms results h)

/-- C10: under the `is:exported` filter, every symbol returned by the
workspace symbol search has an exported (capitalised) name, and an
exported container name whenever the container is non-empty; `isExported`
is exactly that conjunction, so symbols failing either condition are
never collected. -/
theorem workspace_symbol_exported_filter (pathEq : String → String → Bool)
    (scoreFn : SymbolPair → Int) (q : SymQuery) (paramsLimit : Int)
    (pkgs : List SymPkg) :
    (q.filter = FilterExportedS →
      ∀ s ∈ handleWorkspaceSymbol pathEq scoreFn q paramsLimit pkgs,
        isExportedName s.sym.name = true ∧
          (s.sym.container ≠ "" → isExportedName s.sym.container = true)) ∧
    (∀ sym : SymbolPair, isExported sym = true ↔
      (isExportedName sym.name = true ∧
        (sym.container ≠ "" → isExportedName sym.container = true))) := by
  have hiff : ∀ sym : SymbolPair, isExported sym = true ↔
      (isExportedName sym.name = true ∧
        (sym.container ≠ "" → isExportedName sym.container = true)) := by
    intro sym
    rw [isExported]
    by_cases hc : sym.container = ""
    · simp [hc]
    · simp [hc, Bool.and_comm]
  refine ⟨fun hq s hs => ?_, hiff⟩
  rw [← hiff]
  set limit := if paramsLimit = 0 then 50 else paramsLimit with hl
  have hmem : s ∈ (pkgs.foldl (fun results pkg =>
      if q.file ≠ "" ∧ ¬(pkg.filenames.any (fun f => pathEq f q.file)) then results
      else if q.filter = FilterDirS ∧ ¬pathEq pkg.pkgPath q.dir then results
      else if limit ≤ (results.length : Int) then results
      else collectFromPkg scoreFn q pkg.syms results) []).mergeSort symLE := by
    rw [handleWorkspaceSymbol, handleSymbol] at hs
    simp only [← hl] at hs
    by_cases hcut : ((((pkgs.foldl (fun results pkg =>
        if q.file ≠ "" ∧ ¬(pkg.filenames.any (fun f => pathEq f q.file)) then results
        else if q.filter = FilterDirS ∧ ¬pathEq pkg.pkgPath q.dir then results
        else if limit ≤ (results.length : Int) then results
        else collectFromPkg scoreFn q pkg.syms results) []).mergeSort
          symLE).length : Int) > limit ∧ limit > 0)
    · rw [if_pos hcut] at hs
      exact (List.take_sublist _ _).subset hs
    · rw [if_neg hcut] at hs
      exact hs
  rw [List.mem_mergeSort] at hmem
  exact handleSymbol_fold_exported pathEq scoreFn q limit hq pkgs [] (by simp) s hmem

/-- Witness for C10 at a concrete package: the exported filter keeps the
exported pair and drops the unexported ones. -/
theorem workspace_symbol_exported_filter_witness :
    ∀ s ∈ handleWorkspaceSymbol (fun a b => a == b) (fun _ => 1)
        ⟨0, "exported", "", ""⟩ 0
        [⟨"p", ["f.go"], [⟨"Foo", "", "u", 12⟩, ⟨"bar", "", "u", 12⟩,
          ⟨"Baz", "qux", "u", 8⟩]⟩],
      isExportedName s.sym.name = true ∧
        (s.sym.container ≠ "" → isExportedName s.sym.container = true) :=
  (workspace_symbol_exported_filter (fun a b => a == b) (fun _ => 1)
    ⟨0, "exported", "", ""⟩ 0
    [⟨"p", ["f.go"], [⟨"Foo", "", "u", 12⟩, ⟨"bar", "", "u", 12⟩,
      ⟨"Baz", "qux", "u", 8⟩]⟩]).1 rfl

/-- Helper: `resultSorter.Less` is the strict lexicographic comparison of
the sort keys. -/
lemma symLess_iff_key (a b : ScoredSymbol) : symLess a b = true ↔ symKey a < symKey b := by
  rw [symLess, symKey, symKey]
  split_ifs <;> simp_all [Prod.Lex.lt_iff, lt_irrefl]

/-- Helper: the non-strict sort order is key comparison. -/
lemma symLE_iff_key (a b : ScoredSymbol) : symLE a b = true ↔ symKey a ≤ symKey b := by
  rw [symLE, Bool.not_eq_true', Bool.eq_false_iff]
  rw [not_iff_comm, symLess_iff_key, not_le]

/-- Helper: transitivity of the sort order. -/
lemma symLE_trans : ∀ (a b c : ScoredSymbol),
    symLE a b = true → symLE b c = true → symLE a c = true := by
  intro a b c hab hbc
  rw [symLE_iff_key] at *
  exact le_trans hab hbc

/-- Helper: totality of the sort order. -/
lemma symLE_total : ∀ a b : ScoredSymbol, (symLE a b || symLE b a) = true := by
  intro a b
  rcases le_total (symKey a) (symKey b) with h | h
  · simp [(symLE_iff_key a b).mpr h]
  · simp [(symLE_iff_key b a).mpr h]

/-- Helper: the sort order is exactly the claim's lexicographic
description (score descending, then container, name, URI ascending). -/
lemma symLE_iff_symOrder (a b : ScoredSymbol) : symLE a b = true ↔ symOrder a b := by
  rw [symLE_iff_key, le_iff_lt_or_eq, symOrder]
  rw [show symKey a < symKey b ↔ _ from Prod.Lex.lt_iff _ _]
  constructor
  · rintro (h | h)
    · rcases h with h | ⟨h1, h2⟩
      · exact Or.inl (by omega)
      · rw [Prod.Lex.lt_iff] at h2
        rcases h2 with h2 | ⟨h2, h3⟩
        · exact Or.inr ⟨by omega, Or.inl h2⟩
        · rw [Prod.Lex.lt_iff] at h3
          rcases h3 with h3 | ⟨h3, h4⟩
          · exact Or.inr ⟨by omega, Or.inr ⟨h2, Or.inl h3⟩⟩
          · exact Or.inr ⟨by omega, Or.inr ⟨h2, Or.inr ⟨h3, le_of_lt h4⟩⟩⟩
    · rw [symKey, symKey, toLex_inj, Prod.mk.injEq, toLex_inj, Prod.mk.injEq,
        toLex_inj, Prod.mk.injEq] at h
      obtain ⟨h1, h2, h3, h4⟩ := h
      exact Or.inr ⟨by omega, Or.inr ⟨h2, Or.inr ⟨h3, le_of_eq h4⟩⟩⟩
  · rintro (h | ⟨h1, h⟩)
    · exact Or.inl (Or.inl (by omega))
    · rcases h with h | ⟨h2, h⟩
      · exact Or.inl (Or.inr ⟨by omega, Prod.Lex.lt_iff _ _ |>.mpr (Or.inl h)⟩)
      · rcases h with h | ⟨h3, h4⟩
        · exact Or.inl (Or.inr ⟨by omega,
            Prod.Lex.lt_iff _ _ |>.mpr (Or.inr ⟨h2, Prod.Lex.lt_iff _ _ |>.mpr (Or.inl h)⟩)⟩)
        · rcases lt_or_eq_of_le h4 with h4 | h4
          · exact Or.inl (Or.inr ⟨by omega,
              Prod.Lex.lt_iff _ _ |>.mpr (Or.inr ⟨h2,
                Prod.Lex.lt_iff _ _ |>.mpr (Or.inr ⟨h3, h4⟩)⟩)⟩)
          · refine Or.inr ?_
            rw [symKey, symKey, toLex_inj, Prod.mk.injEq, toLex_inj, Prod.mk.injEq,
              toLex_inj, Prod.mk.injEq]
            exact ⟨by omega, h2, h3, h4⟩

/-- C7: the workspace symbol search returns a list sorted by score
descending with ties broken by container, then name, then URI ascending,
and never longer than the request limit, which defaults to 50 when the
client specifies none. -/
theorem workspace_symbol_sorted_truncated (pathEq : String → String → Bool)
    (scoreFn : SymbolPair → Int) (q : SymQuery) (paramsLimit : Int)
    (pkgs : List SymPkg) (h : 0 ≤ paramsLimit) :
    (handleWorkspaceSymbol pathEq scoreFn q paramsLimit pkgs).Pairwise symOrder ∧
      ((handleWorkspaceSymbol pathEq scoreFn q paramsLimit pkgs).length : Int) ≤
        (if paramsLimit = 0 then 50 else paramsLimit) := by
  rw [handleWorkspaceSymbol, handleSymbol]
  set L : Int := if paramsLimit = 0 then 50 else paramsLimit with hL
  have hLpos : 0 < L := by rw [hL]; split_ifs <;> omega
  set R := pkgs.foldl (fun results pkg =>
    if q.file ≠ "" ∧ ¬(pkg.filenames.any (fun f => pathEq f q.file)) then results
    else if q.filter = FilterDirS ∧ ¬pathEq pkg.pkgPath q.dir then results
    else if L ≤ (results.length : Int) then results
    else collectFromPkg scoreFn q pkg.syms results) [] with hR
  have hS : (R.mergeSort symLE).Pairwise (fun a b => symLE a b = true) :=
    List.sorted_mergeSort symLE_trans symLE_total R
  have hS' : (R.mergeSort symLE).Pairwise symOrder :=
    hS.imp (fun hab => (symLE_iff_symOrder _ _).mp hab)
  by_cases hcut : (((R.mergeSort symLE).length : Int) > L ∧ L > 0)
  · rw [if_pos hcut]
    constructor
    · exact hS'.sublist (List.take_sublist L.toNat (R.mergeSort symLE))
    · rw [List.length_take]
      have h4 : (L.toNat : Int) = L := Int.toNat_of_nonneg (by omega)
      have h5 := Nat.min_le_left L.toNat (R.mergeSort symLE).length
      omega
  · rw [if_neg hcut]
    exact ⟨hS', by omega⟩

/-- Witness for C7 at a concrete search (no client limit, so the default
50 applies). -/
theorem workspace_symbol_sorted_truncated_witness :
    (handleWorkspaceSymbol (fun a b => a == b) (fun _ => 1) ⟨0, "", "", ""⟩ 0
        [⟨"p", ["f.go"], [⟨"b", "", "u", 12⟩, ⟨"A", "", "u", 12⟩]⟩]).Pairwise
        symOrder ∧
      ((handleWorkspaceSymbol (fun a b => a == b) (fun _ => 1) ⟨0, "", "", ""⟩ 0
          [⟨"p", ["f.go"], [⟨"b", "", "u", 12⟩, ⟨"A", "", "u", 12⟩]⟩]).length :
        Int) ≤ (if (0 : Int) = 0 then 50 else 0) :=
  workspace_symbol_sorted_truncated (fun a b => a == b) (fun _ => 1)
    ⟨0, "", "", ""⟩ 0
    [⟨"p", ["f.go"], [⟨"b", "", "u", 12⟩, ⟨"A", "", "u", 12⟩]⟩] (by omega)

/-- Helper: the pretty-printing loop copies any string free of the
transformed characters unchanged, at any depth and in or out of a tag. -/
lemma ppCore_no_special (d : Nat) (tag : Bool) :
    ∀ s : GoStr, (∀ c ∈ s, ppSpecial c = false) → ppCore d tag s = some s := by
  intro s
  induction s with
  | nil => intro _; rfl
  | cons c t ih =>
    intro h
    have hc := h c (by simp)
    simp only [ppSpecial, Bool.or_eq_false_iff, decide_eq_false_iff_not] at hc
    obtain ⟨⟨⟨⟨h1, h2⟩, h3⟩, h4⟩, h5⟩ := hc
    cases t with
    | nil => simp [ppCore, h1, h2, h3, h4, h5]
    | cons n rest =>
      have ht : ∀ x ∈ n :: rest, ppSpecial x = false :=
        fun x hx => h x (List.mem_cons_of_mem _ hx)
      rw [show ppCore d tag (c :: n :: rest) = (ppCore d tag (n :: rest)).map (c :: ·) from by
        simp [ppCore, h1, h2, h3, h4, h5]]
      rw [ih ht]
      rfl

/-- Helper: strings free of the transformed characters (they cannot end
in an empty brace pair) are fixed points of the pretty printer. -/
lemma prettyPrint_fixed (s : GoStr) (h : ∀ c ∈ s, ppSpecial c = false) :
    prettyPrintTypesString s = s := by
  rw [prettyPrintTypesString]
  have hsuf : (("{}".toList).isSuffixOf s) = false := by
    by_contra hcon
    rw [Bool.not_eq_false] at hcon
    have hmem : '}' ∈ s := by
      have hs := List.isSuffixOf_iff_suffix.mp hcon
      exact hs.subset (by decide)
    have := h _ hmem
    simp [ppSpecial] at this
  rw [hsuf]
  simp only [Bool.false_eq_true, if_false]
  rw [ppCore_no_special 0 false s h]

/-- Counterexample to C9 as stated: on `"struct{x int}"` (a realistic
`types.TypeString` output) the second pass differs from the first even
modulo a terminal newline, because the re-run inserts a fresh
newline-plus-indent after the already expanded open brace. -/
theorem prettyPrint_not_idempotent_cex :
    prettyPrintTypesString (prettyPrintTypesString ("struct{x int}".toList)) ≠
        prettyPrintTypesString ("struct{x int}".toList) ∧
      prettyPrintTypesString (prettyPrintTypesString ("struct{x int}".toList)) ≠
        prettyPrintTypesString ("struct{x int}".toList) ++ ['
'] ∧
      prettyPrintTypesString ("struct{x int}".toList) ≠
        prettyPrintTypesString
          (prettyPrintTypesString ("struct{x int}".toList)) ++ ['
'] := by
  decide

/-- C9 (amended): the pretty-print transformation is idempotent (exactly,
not merely modulo a terminal newline) on every input whose pretty-printed
form contains none of the transformed characters — semicolon, double
quote, backslash, open or close brace; brace-bearing output is re-expanded
on a second pass, as the counterexample shows. -/
theorem prettyPrint_idempotent_on_plain (s : GoStr)
    (h : ∀ c ∈ prettyPrintTypesString s, ppSpecial c = false) :
    prettyPrintTypesString (prettyPrintTypesString s) = prettyPrintTypesString s :=
  prettyPrint_fixed _ h

/-- Witness for the amended C9 on a brace-free formatter output. -/
theorem prettyPrint_idempotent_on_plain_witness :
    prettyPrintTypesString (prettyPrintTypesString ("func f(x int) int".toList)) =
      prettyPrintTypesString ("func f(x int) int".toList) :=
  prettyPrint_idempotent_on_plain ("func f(x int) int".toList) (by decide)



/-- Helper: the field splitter absorbs a separator-free run into its
accumulator. -/
lemma splitDropAux_no_sep (p : Char → Bool) :
    ∀ (w : GoStr) (acc rest : GoStr), (∀ c ∈ w, p c = false) →
      splitDropAux p acc (w ++ rest) = splitDropAux p (w.reverse ++ acc) rest := by
  intro w
  induction w with
  | nil => intro acc rest _; simp
  | cons c w ih =>
    intro acc rest h
    have hc : p c = false := h c (by simp)
    rw [List.cons_append, splitDropAux, hc]
    simp only [Bool.false_eq_true, if_false]
    rw [ih (c :: acc) rest (fun x hx => h x (List.mem_cons_of_mem _ hx))]
    simp

/-- Helper: a non-empty separator-free string is a single field. -/
lemma splitDrop_single (p : Char → Bool) (w : GoStr) (hw : w ≠ [])
    (h : ∀ c ∈ w, p c = false) : splitDropAux p [] w = [w] := by
  have := splitDropAux_no_sep p w [] [] h
  rw [List.append_nil] at this
  rw [this, splitDropAux]
  simp [hw]

/-- Helper: splitting a separator-joined list of non-empty
separator-free fields recovers the fields. -/
lemma splitDrop_joinSep (p : Char → Bool) (c : Char) (hc : p c = true) :
    ∀ fs : List GoStr, (∀ f ∈ fs, f ≠ [] ∧ ∀ ch ∈ f, p ch = false) →
      splitDropAux p [] (joinSep c fs) = fs := by
  intro fs
  induction fs with
  | nil => intro _; rfl
  | cons f fs ih =>
    intro h
    obtain ⟨hne, hnosep⟩ := h f (by simp)
    cases fs with
    | nil =>
      rw [joinSep]
      exact splitDrop_single p f hne hnosep
    | cons g gs =>
      rw [joinSep]
      rw [splitDropAux_no_sep p f [] (c :: joinSep c (g :: gs)) hnosep]
      rw [List.append_nil]
      have hrev : (f.reverse).isEmpty = false := by
        simp [List.isEmpty_iff, hne]
      simp only [splitDropAux, hc, hrev, if_true, Bool.false_eq_true, if_false,
        List.reverse_reverse]
      rw [ih (fun x hx => h x (List.mem_cons_of_mem _ hx))]
      simp

/-- Helper: `dropWhile` is the identity on lists whose head fails the
predicate (in particular predicate-free lists). -/
lemma dropWhile_no (p : Char → Bool) (l : GoStr) (h : ∀ c ∈ l, p c = false) :
    l.dropWhile p = l := by
  cases l with
  | nil => rfl
  | cons a t =>
    rw [List.dropWhile_cons, h a (by simp)]
    simp

/-- Helper: `TrimSpace` fixes whitespace-free strings. -/
lemma trimGo_no_space (s : GoStr) (h : ∀ c ∈ s, isSpaceGo c = false) :
    trimGo s = s := by
  rw [trimGo, dropWhile_no isSpaceGo s h,
    dropWhile_no isSpaceGo s.reverse (fun c hc => h c (List.mem_reverse.mp hc)),
    List.reverse_reverse]

/-- Helper: joining onto the empty accumulated query gives the field
itself. -/
lemma queryJoin_nil (e : GoStr) (_he : e ≠ []) (hs : ∀ c ∈ e, isSpaceGo c = false) :
    queryJoin [] e = e := by
  rw [queryJoin, List.nil_append, trimGo, List.dropWhile_cons]
  simp only [show isSpaceGo ' ' = true from rfl, if_true]
  rw [dropWhile_no isSpaceGo e hs,
    dropWhile_no isSpaceGo e.reverse (fun c hc => hs c (List.mem_reverse.mp hc)),
    List.reverse_reverse]

/-- Helper: `queryJoin` is plain concatenation with a single space when
the accumulator starts with a non-space and the new field is non-empty
and whitespace-free. -/
lemma queryJoin_cons (a : Char) (s e : GoStr) (ha : isSpaceGo a = false)
    (he : e ≠ []) (hs : ∀ c ∈ e, isSpaceGo c = false) :
    queryJoin (a :: s) e = (a :: s) ++ ' ' :: e := by
  rw [queryJoin, trimGo]
  rw [List.cons_append, List.dropWhile_cons, ha]
  simp only [Bool.false_eq_true, if_false]
  obtain ⟨d, t, hd⟩ := List.exists_cons_of_ne_nil
    (by simp [he] : e.reverse ≠ [])
  have hrev : ((a :: s) ++ ' ' :: e).reverse = d :: (t ++ ' ' :: (a :: s).reverse) := by
    rw [List.reverse_append]
    simp [hd]
  rw [← List.cons_append, hrev, List.dropWhile_cons]
  have hdmem : d ∈ e := by
    rw [← List.mem_reverse, hd]
    simp
  rw [hs d hdmem]
  simp only [Bool.false_eq_true, if_false]
  rw [← hrev, List.reverse_reverse]

/-- Helper: appending one more field to a space-joined list. -/
lemma joinSep_append_single (g : GoStr) :
    ∀ fs : List GoStr, fs ≠ [] →
      joinSep ' ' fs ++ ' ' :: g = joinSep ' ' (fs ++ [g]) := by
  intro fs
  induction fs with
  | nil => intro h; exact absurd rfl h
  | cons f fs ih =>
    intro _
    cases fs with
    | nil => rfl
    | cons g2 gs =>
      rw [show joinSep ' ' (f :: g2 :: gs) = f ++ ' ' :: joinSep ' ' (g2 :: gs) from rfl]
      rw [show ((f :: g2 :: gs) ++ [g] : List GoStr) = f :: (g2 :: gs ++ [g]) from by simp]
      rw [show joinSep ' ' (f :: (g2 :: gs ++ [g])) =
        f ++ ' ' :: joinSep ' ' (g2 :: gs ++ [g]) from rfl]
      rw [← ih (by simp)]
      simp

/-- Helper: a space-joined non-empty list starts with its first field. -/
lemma joinSep_cons_decomp (f : GoStr) (fs : List GoStr) :
    ∃ r, joinSep ' ' (f :: fs) = f ++ r := by
  cases fs with
  | nil => exact ⟨[], by simp [joinSep]⟩
  | cons g gs => exact ⟨' ' :: joinSep ' ' (g :: gs), rfl⟩

/-- Helper: folding `queryJoin` over good fields from a good non-empty
accumulated field list produces the space-joined concatenation. -/
lemma foldl_queryJoin_from :
    ∀ (gs accFs : List GoStr),
      accFs ≠ [] →
      (∀ f ∈ accFs, f ≠ [] ∧ ∀ c ∈ f, isSpaceGo c = false) →
      (∀ f ∈ gs, f ≠ [] ∧ ∀ c ∈ f, isSpaceGo c = false) →
      gs.foldl queryJoin (joinSep ' ' accFs) = joinSep ' ' (accFs ++ gs) := by
  intro gs
  induction gs with
  | nil => intro accFs _ _ _; simp
  | cons g gs ih =>
    intro accFs hne hacc hgs
    rw [List.foldl_cons]
    obtain ⟨f0, accFs', rfl⟩ := List.exists_cons_of_ne_nil hne
    obtain ⟨h0ne, h0sp⟩ := hacc f0 (by simp)
    obtain ⟨c0, f0', rfl⟩ := List.exists_cons_of_ne_nil h0ne
    obtain ⟨r, hr⟩ := joinSep_cons_decomp (c0 :: f0') accFs'
    obtain ⟨hgne, hgsp⟩ := hgs g (by simp)
    have hq : queryJoin (joinSep ' ' ((c0 :: f0') :: accFs')) g =
        joinSep ' ' ((c0 :: f0') :: accFs') ++ ' ' :: g := by
      rw [hr, List.cons_append]
      rw [queryJoin_cons c0 (f0' ++ r) g (h0sp c0 (by simp)) hgne hgsp]
    rw [hq, joinSep_append_single g ((c0 :: f0') :: accFs') (by simp)]
    rw [ih (((c0 :: f0') :: accFs') ++ [g]) (by simp)
      (by
        intro f hf
        rcases List.mem_append.mp hf with h | h
        · exact hacc f h
        · simp only [List.mem_singleton] at h
          subst h
          exact ⟨hgne, hgsp⟩)
      (fun f hf => hgs f (List.mem_cons_of_mem _ hf))]
    simp

/-- Helper: the `queryJoin` fold of `Query.String` over non-empty
whitespace-free fields is their space-joined concatenation. -/
lemma renderFields_eq (fs : List GoStr)
    (h : ∀ f ∈ fs, f ≠ [] ∧ ∀ c ∈ f, isSpaceGo c = false) :
    fs.foldl queryJoin [] = joinSep ' ' fs := by
  cases fs with
  | nil => rfl
  | cons f fs =>
    rw [List.foldl_cons]
    obtain ⟨hne, hsp⟩ := h f (by simp)
    rw [queryJoin_nil f hne hsp]
    exact foldl_queryJoin_from fs [f] (by simp)
      (by intro x hx; simp only [List.mem_singleton] at hx; subst hx; exact ⟨hne, hsp⟩)
      (fun x hx => h x (List.mem_cons_of_mem _ hx))

/-- Helper: parsing the rendered `is:exported` field. -/
lemma parseField_exported (qu : GoQuery) :
    parseField qu ("is:exported".toList) = { qu with filter := FilterExportedG } := rfl

/-- Helper: parsing a rendered `dir:` field recovers the directory via
`TrimPrefix`. -/
lemma parseField_dir (qu : GoQuery) (dir : GoStr) :
    parseField qu (("dir:".toList) ++ dir) =
      { qu with filter := FilterDirG, dir := dir } := by
  rw [parseField]
  rw [if_pos ?hpre]
  case hpre =>
    rw [List.isPrefixOf_iff_prefix]
    exact ⟨dir, rfl⟩
  have hdrop : (("dir:".toList) ++ dir).drop 4 = dir := by
    rw [show (4 : Nat) = ("dir:".toList).length from rfl, List.drop_left]
  rw [hdrop]

/-- Helper: parsing a kind keyword field sets the kind. -/
lemma parseField_keyword (kv : GoStr × Nat) (hkv : kv ∈ keywords) (qu : GoQuery) :
    parseField qu kv.1 = { qu with kind := kv.2 } := by
  simp only [keywords, List.mem_cons, List.not_mem_nil, or_false] at hkv
  rcases hkv with h | h | h | h | h | h | h <;> subst h <;> rfl

/-- Helper: parsing a canonical token appends it to the token list. -/
lemma parseField_token (t : GoStr) (ht : canonicalToken t) (qu : GoQuery) :
    parseField qu t = { qu with tokens := qu.tokens ++ [t] } := by
  obtain ⟨hne, _, hsep, hkw, hexp, hdir⟩ := ht
  rw [parseField, if_neg (by rw [hdir]; simp), if_neg hexp]
  rw [goFieldsDotSlash,
    splitDrop_single isDotSlash t hne (fun c hc => (hsep c hc).2)]
  rw [List.foldl_cons, List.foldl_nil]
  rw [List.find?_eq_none.mpr (fun kv hkv => by
    simp only [decide_eq_true_eq]
    exact fun hcon => hkw kv hkv hcon.symm)]

/-- Helper: parsing a run of canonical token fields appends them in
order and touches nothing else. -/
lemma parse_tokens_run :
    ∀ (toks : List GoStr) (qu : GoQuery), (∀ t ∈ toks, canonicalToken t) →
      toks.foldl parseField qu = { qu with tokens := qu.tokens ++ toks } := by
  intro toks
  induction toks with
  | nil => intro qu _; simp
  | cons t toks ih =>
    intro qu h
    rw [List.foldl_cons, parseField_token t (h t (by simp)) qu]
    rw [ih _ (fun x hx => h x (List.mem_cons_of_mem _ hx))]
    simp

/-- Helper: case folding fixes the space separator. -/
lemma toLowerGo_space : toLowerGo ' ' = ' ' := rfl

/-- Helper: case folding distributes over the space-joined fields. -/
lemma goToLower_joinSep :
    ∀ fs : List GoStr, goToLower (joinSep ' ' fs) = joinSep ' ' (fs.map goToLower) := by
  intro fs
  induction fs with
  | nil => rfl
  | cons f fs ih =>
    cases fs with
    | nil => rfl
    | cons g gs =>
      rw [show joinSep ' ' (f :: g :: gs) = f ++ ' ' :: joinSep ' ' (g :: gs) from rfl]
      rw [goToLower, List.map_append, List.map_cons, toLowerGo_space]
      rw [show (List.map toLowerGo (joinSep ' ' (g :: gs))) =
        goToLower (joinSep ' ' (g :: gs)) from rfl, ih]
      rfl

/-- Helper: `Query.String` is the `queryJoin` fold over its emitted
field list. -/
lemma queryString_eq_foldl (q : GoQuery) :
    queryString q = (queryFields q).foldl queryJoin [] := by
  rw [queryString, queryFields]
  rw [List.foldl_append, List.foldl_append]
  congr 1
  have h1 : (if q.filter = FilterExportedG then [("is:exported".toList)]
      else if q.filter = FilterDirG then [q.filter ++ ':' :: q.dir]
      else []).foldl queryJoin [] =
      (if q.filter = FilterExportedG then queryJoin [] ("is:exported".toList)
       else if q.filter = FilterDirG then queryJoin [] (q.filter ++ ':' :: q.dir)
       else []) := by
    split_ifs <;> rfl
  rw [h1]
  by_cases hk : q.kind ≠ 0
  · rw [if_pos hk, if_pos hk, List.foldl_map]
  · rw [if_neg hk, if_neg hk, List.foldl_nil]

/-- C8 (amended): for every canonical query - kind zero or a keyword
kind, filter one of the three representable states with a lower-case
whitespace-free `Dir` only under the dir filter, and lower-case,
separator-free, non-keyword tokens - `ParseQuery` of the rendered form
restores `Filter`, `Kind`, `Dir`, and `Tokens` exactly, order included.
Outside this fragment the round trip loses information, as the
counterexample shows. -/
theorem query_string_parse_roundtrip (q : GoQuery) (h : canonicalQuery q) :
    (ParseQuery (queryString q)).filter = q.filter ∧
      (ParseQuery (queryString q)).kind = q.kind ∧
      (ParseQuery (queryString q)).dir = q.dir ∧
      (ParseQuery (queryString q)).tokens = q.tokens := by
  obtain ⟨hkind, hfilter, htoks⟩ := h
  have hgoodkw : ∀ kv ∈ keywords, (kv.1 ≠ [] ∧ ∀ c ∈ kv.1, isSpaceGo c = false) ∧
      goToLower kv.1 = kv.1 := by decide
  have hgoodF : ∀ f ∈ queryFields q, f ≠ [] ∧ ∀ c ∈ f, isSpaceGo c = false := by
    intro f hf
    rw [queryFields] at hf
    rcases List.mem_append.mp hf with hf | hf
    · rcases hfilter with ⟨hfe, _⟩ | ⟨hfd, hdl, hds⟩ | ⟨hfn, _⟩
      · rw [if_pos hfe] at hf
        simp only [List.mem_singleton] at hf
        subst hf
        exact ⟨by decide, by decide⟩
      · rw [if_neg (by rw [hfd]; decide), if_pos hfd] at hf
        simp only [List.mem_singleton] at hf
        subst hf
        rw [hfd]
        refine ⟨by simp [FilterDirG], ?_⟩
        intro c hc
        rw [show (FilterDirG ++ ':' :: q.dir) = (("dir:".toList) ++ q.dir) from rfl] at hc
        rcases List.mem_append.mp hc with hc | hc
        · have hall : ∀ x ∈ ("dir:".toList), isSpaceGo x = false := by decide
          exact hall c hc
        · exact hds c hc
      · rw [if_neg (by rw [hfn]; decide), if_neg (by rw [hfn]; decide)] at hf
        exact absurd hf (List.not_mem_nil f)
    · rcases List.mem_append.mp hf with hf | hf
      · by_cases hk0 : q.kind ≠ 0
        · rw [if_pos hk0] at hf
          obtain ⟨kv, hkv, rfl⟩ := List.mem_map.mp hf
          exact (hgoodkw kv (List.mem_of_mem_filter hkv)).1
        · rw [if_neg hk0] at hf
          exact absurd hf (List.not_mem_nil f)
      · obtain ⟨hne, _, hsep, _⟩ := htoks f hf
        exact ⟨hne, fun c hc => (hsep c hc).1⟩
  have hfix : ∀ f ∈ queryFields q, goToLower f = f := by
    intro f hf
    rw [queryFields] at hf
    rcases List.mem_append.mp hf with hf | hf
    · rcases hfilter with ⟨hfe, _⟩ | ⟨hfd, hdl, hds⟩ | ⟨hfn, _⟩
      · rw [if_pos hfe] at hf
        simp only [List.mem_singleton] at hf
        subst hf
        decide
      · rw [if_neg (by rw [hfd]; decide), if_pos hfd] at hf
        simp only [List.mem_singleton] at hf
        subst hf
        rw [hfd]
        rw [show (FilterDirG ++ ':' :: q.dir) = (("dir:".toList) ++ q.dir) from rfl]
        rw [goToLower, List.map_append]
        rw [show List.map toLowerGo ("dir:".toList) = ("dir:".toList) from by decide]
        rw [show List.map toLowerGo q.dir = goToLower q.dir from rfl, hdl]
      · rw [if_neg (by rw [hfn]; decide), if_neg (by rw [hfn]; decide)] at hf
        exact absurd hf (List.not_mem_nil f)
    · rcases List.mem_append.mp hf with hf | hf
      · by_cases hk0 : q.kind ≠ 0
        · rw [if_pos hk0] at hf
          obtain ⟨kv, hkv, rfl⟩ := List.mem_map.mp hf
          exact (hgoodkw kv (List.mem_of_mem_filter hkv)).2
        · rw [if_neg hk0] at hf
          exact absurd hf (List.not_mem_nil f)
      · exact (htoks f hf).2.1
  have h1 : queryString q = joinSep ' ' (queryFields q) := by
    rw [queryString_eq_foldl]
    exact renderFields_eq _ hgoodF
  have h2 : goFields (goToLower (queryString q)) = queryFields q := by
    rw [h1, goToLower_joinSep]
    have hmap : (queryFields q).map goToLower = queryFields q := by
      conv_rhs => rw [← List.map_id (queryFields q)]
      exact List.map_congr_left (fun a ha => hfix a ha)
    rw [hmap, goFields]
    exact splitDrop_joinSep isSpaceGo ' ' (by decide) _ hgoodF
  rw [ParseQuery, h2]
  suffices hsuff : (queryFields q).foldl parseField emptyQuery =
      ⟨q.kind, q.filter, [], q.dir, q.tokens⟩ by
    rw [hsuff]
    exact ⟨rfl, rfl, rfl, rfl⟩
  rw [queryFields, List.foldl_append, List.foldl_append]
  have hmid1 : ((if q.filter = FilterExportedG then [("is:exported".toList)]
      else if q.filter = FilterDirG then [q.filter ++ ':' :: q.dir]
      else []).foldl parseField emptyQuery) =
      (⟨0, q.filter, [], q.dir, []⟩ : GoQuery) := by
    rcases hfilter with ⟨hfe, hd⟩ | ⟨hfd, hdl, hds⟩ | ⟨hfn, hd⟩
    · rw [if_pos hfe, List.foldl_cons, List.foldl_nil, parseField_exported]
      rw [hfe, hd]
      rfl
    · rw [if_neg (by rw [hfd]; decide), if_pos hfd, List.foldl_cons, List.foldl_nil]
      rw [hfd]
      rw [show (FilterDirG ++ ':' :: q.dir) = (("dir:".toList) ++ q.dir) from rfl]
      rw [parseField_dir]
      rfl
    · rw [if_neg (by rw [hfn]; decide), if_neg (by rw [hfn]; decide), List.foldl_nil]
      rw [hfn, hd]
      rfl
  rw [hmid1]
  have hmid2 : ((if q.kind ≠ 0 then
      (keywords.filter (fun kv => kv.2 = q.kind)).map (·.1)
      else []).foldl parseField (⟨0, q.filter, [], q.dir, []⟩ : GoQuery)) =
      (⟨q.kind, q.filter, [], q.dir, []⟩ : GoQuery) := by
    rcases hkind with hk0 | hkmem
    · rw [if_neg (by omega), List.foldl_nil, hk0]
    · simp only [keywords, List.map_cons, List.map_nil, List.mem_cons,
        List.not_mem_nil, or_false] at hkmem
      rcases hkmem with hk | hk | hk | hk | hk | hk | hk <;> rw [hk] <;>
        rw [if_pos (by omega)]
      · rw [show (keywords.filter (fun kv => kv.2 = 4)).map (·.1) =
          [("package".toList)] from by decide]
        rw [List.foldl_cons, List.foldl_nil]
        rfl
      · rw [show (keywords.filter (fun kv => kv.2 = 5)).map (·.1) =
          [("type".toList)] from by decide]
        rw [List.foldl_cons, List.foldl_nil]
        rfl
      · rw [show (keywords.filter (fun kv => kv.2 = 6)).map (·.1) =
          [("method".toList)] from by decide]
        rw [List.foldl_cons, List.foldl_nil]
        rfl
      · rw [show (keywords.filter (fun kv => kv.2 = 8)).map (·.1) =
          [("field".toList)] from by decide]
        rw [List.foldl_cons, List.foldl_nil]
        rfl
      · rw [show (keywords.filter (fun kv => kv.2 = 12)).map (·.1) =
          [("func".toList)] from by decide]
        rw [List.foldl_cons, List.foldl_nil]
        rfl
      · rw [show (keywords.filter (fun kv => kv.2 = 13)).map (·.1) =
          [("var".toList)] from by decide]
        rw [List.foldl_cons, List.foldl_nil]
        rfl
      · rw [show (keywords.filter (fun kv => kv.2 = 14)).map (·.1) =
          [("const".toList)] from by decide]
        rw [List.foldl_cons, List.foldl_nil]
        rfl
  rw [hmid2]
  rw [parse_tokens_run q.tokens _ htoks]
  rfl


/-- Counterexample to C8 as stated: for the query with the single token
`"A"`, parsing the rendered form lower-cases the token, so the `Tokens`
are not preserved even as a set. -/
theorem query_string_parse_roundtrip_cex :
    (ParseQuery (queryString ⟨0, [], [], [], [("A".toList)]⟩)).tokens =
        [("a".toList)] ∧
      ("A".toList) ∉ (ParseQuery (queryString ⟨0, [], [], [], [("A".toList)]⟩)).tokens := by
  decide

/-- Witness for the amended C8 at a concrete canonical query (dir filter,
`type` kind, two tokens). -/
theorem query_string_parse_roundtrip_witness :
    (ParseQuery (queryString ⟨5, FilterDirG, [], ("a/b".toList),
        [("foo".toList), ("bar".toList)]⟩)).filter =
        (⟨5, FilterDirG, [], ("a/b".toList),
          [("foo".toList), ("bar".toList)]⟩ : GoQuery).filter ∧
      (ParseQuery (queryString ⟨5, FilterDirG, [], ("a/b".toList),
          [("foo".toList), ("bar".toList)]⟩)).kind =
        (⟨5, FilterDirG, [], ("a/b".toList),
          [("foo".toList), ("bar".toList)]⟩ : GoQuery).kind ∧
      (ParseQuery (queryString ⟨5, FilterDirG, [], ("a/b".toList),
          [("foo".toList), ("bar".toList)]⟩)).dir =
        (⟨5, FilterDirG, [], ("a/b".toList),
          [("foo".toList), ("bar".toList)]⟩ : GoQuery).dir ∧
      (ParseQuery (queryString ⟨5, FilterDirG, [], ("a/b".toList),
          [("foo".toList), ("bar".toList)]⟩)).tokens =
        (⟨5, FilterDirG, [], ("a/b".toList),
          [("foo".toList), ("bar".toList)]⟩ : GoQuery).tokens :=
  query_string_parse_roundtrip
    ⟨5, FilterDirG, [], ("a/b".toList), [("foo".toList), ("bar".toList)]⟩
    (by decide)

end Theorems

end Bingo
